import Mathlib

/-!
Verification of the algebraic core of `bitcoin-proto-rs`: finite-field
arithmetic (`src/ecc/field_element.rs`) and the elliptic-curve group law
(`src/ecc/point.rs`).

Modelling conventions, chosen once and used throughout:

* Rust `i32` is modelled twice.  Claims that do not depend on the carrier
  width are settled over unbounded `Int`: their statements are evaluated at
  inputs, or hold on control-flow grounds, where i32 and `Int` arithmetic
  agree.  The commutativity claim quantifies over all moduli and is
  width-sensitive, so it is settled over a second, i32-faithful model (the
  `32`-suffixed definitions) in which every `+`, `-`, `*` result wraps to
  the i32 range with an explicit remainder mod 2^32 — the release-build
  semantics of Rust integer overflow (debug builds abort there instead).
* Rust `%` on signed integers is truncated remainder, i.e. `Int.tmod`;
  Rust `/` is truncated division, i.e. `Int.tdiv`; Rust `rem_euclid` is
  `Int.emod` (result in `[0, |b|)` for `b` nonzero, matching Rust).
* Fallible Rust functions returning `Result<T, String>` are modelled as
  `Except String T`; the `?` operator is modelled by explicit matches that
  propagate `.error` unchanged.
* A Rust panic (an `unwrap` of `None`, or `Display` of the point at
  infinity) is modelled by `Option`: functions that can panic return
  `Option _`, with `none` standing for the panic.
* The `while exp > 0` loop of `mod_exp` is modelled with an explicit fuel
  of `exp.toNat` iterations.  The loop halves a positive `exp` at every
  step, so `exp.toNat` iterations always suffice to drive `exp` to zero;
  the fuel never runs out while `exp` is still positive.
-/

/-- Decidable equality for `Except`, by cases on the two constructors. -/
instance {ε α : Type} [DecidableEq ε] [DecidableEq α] : DecidableEq (Except ε α) :=
  fun a b =>
    match a, b with
    | .error e, .error f =>
      if h : e = f then .isTrue (by rw [h])
      else .isFalse (by intro hc; injection hc; exact h (by assumption))
    | .ok u, .ok v =>
      if h : u = v then .isTrue (by rw [h])
      else .isFalse (by intro hc; injection hc; exact h (by assumption))
    | .error _, .ok _ => .isFalse (by intro hc; exact Except.noConfusion hc)
    | .ok _, .error _ => .isFalse (by intro hc; exact Except.noConfusion hc)

/-- `FieldElement` from `src/ecc/field_element.rs`: an integer residue
`num` together with the field modulus `prime`. -/
structure FieldElement where
  num : Int
  prime : Int
deriving DecidableEq, Repr

/-- The body of the `while exp > 0` loop of `mod_exp`
(`src/ecc/field_element.rs`), with explicit fuel.  Each iteration
multiplies the accumulator by the running base when the low bit of the
exponent is set, squares the base, and halves the exponent; all products
are reduced with the truncated remainder, exactly as the Rust `%` does. -/
def modExpFuel (modulus : Int) : Nat → Int → Int → Int → Int
  | 0, _base, _exp, result => result
  | fuel + 1, base, exp, result =>
    if 0 < exp then
      modExpFuel modulus fuel ((base * base).tmod modulus) (exp.tdiv 2)
        (if exp.tmod 2 = 1 then (result * base).tmod modulus else result)
    else result

/-- `mod_exp(base, exp, modulus)` from `src/ecc/field_element.rs`: the base
is first reduced by `%`, then square-and-multiply runs while the exponent
is positive.  `exp.toNat` units of fuel bound the iteration count, since a
positive exponent is halved at every step. -/
def mod_exp (base exp modulus : Int) : Int :=
  modExpFuel modulus exp.toNat (base.tmod modulus) exp 1

namespace FieldElement

/-- `FieldElement::new` from `src/ecc/field_element.rs`: reduce with the
truncated `%`, then reject a residue that is not below `prime`.  Note that
the truncated remainder of a negative `num` is negative, and that the
guard only checks the upper bound. -/
def new (num prime : Int) : Except String FieldElement :=
  let n := num.tmod prime
  if n ≥ prime then
    .error ("Num " ++ toString n ++ " not in field range 0 to " ++ toString (prime - 1))
  else
    .ok ⟨n, prime⟩

/-- `FieldElement::field_power` from `src/ecc/field_element.rs`: the
exponent is reduced with `rem_euclid(prime - 1)`, then `mod_exp` runs and
the result is passed back through `new`. -/
def field_power (e : FieldElement) (exponent : Int) : Except String FieldElement :=
  let n := exponent.emod (e.prime - 1)
  new (mod_exp e.num n e.prime) e.prime

/-- `impl Add for FieldElement` from `src/ecc/field_element.rs`. -/
def add (a other : FieldElement) : Except String FieldElement :=
  if a.prime ≠ other.prime then
    .error "Can\x27t add two numbers from different Fields"
  else
    let num := (a.num + other.num).tmod a.prime
    let num := if num < 0 then num + a.prime else num
    new num a.prime

/-- `impl Sub for FieldElement` from `src/ecc/field_element.rs` (the source
reuses the addition error message here). -/
def sub (a other : FieldElement) : Except String FieldElement :=
  if a.prime ≠ other.prime then
    .error "Can\x27t add two numbers from different Fields"
  else
    let num := (a.num - other.num).tmod a.prime
    let num := if num < 0 then num + a.prime else num
    new num a.prime

/-- `impl Div for FieldElement` from `src/ecc/field_element.rs`: multiply
by `mod_exp(other.num, prime - 2, prime)`.  There is no check that
`other.num` is nonzero. -/
def div (a other : FieldElement) : Except String FieldElement :=
  if a.prime ≠ other.prime then
    .error "Can\x27t divide two numbers from different Fields"
  else
    let num := (a.num * mod_exp other.num (a.prime - 2) a.prime).tmod a.prime
    let num := if num < 0 then num + a.prime else num
    new num a.prime

/-- `impl Mul for FieldElement` from `src/ecc/field_element.rs`: the only
guard compares `other.num` against `self.prime`; the two `prime` fields
are never compared with each other. -/
def mul (a other : FieldElement) : Except String FieldElement :=
  if other.num ≥ a.prime then
    .error "All numbers should belong to same set"
  else
    let res := (a.num * other.num).tmod a.prime
    let res := if res < 0 then res + a.prime else res
    new res a.prime

/-- `impl fmt::Display for FieldElement` from `src/ecc/field_element.rs`:
renders just the residue. -/
def fmtDisplay (e : FieldElement) : String := toString e.num

end FieldElement

/-- `Point` from `src/ecc/point.rs`: curve coefficients `a`, `b` and
optional coordinates; `none` coordinates stand for the point at
infinity. -/
structure Point where
  a : FieldElement
  b : FieldElement
  x : Option FieldElement
  y : Option FieldElement
deriving DecidableEq, Repr

/-- `Point::new` from `src/ecc/point.rs`: when both coordinates are
present, check `y^2 = x^3 + a*x + b` with field operations (each `?` is an
explicit error-propagating match); when either coordinate is absent the
arguments are accepted unchanged, with no further check. -/
def Point.new (x y : Option FieldElement) (a b : FieldElement) : Except String Point :=
  match x, y with
  | some xv, some yv =>
    (match FieldElement.field_power yv 2 with
     | .error e => .error e
     | .ok y2 =>
       match FieldElement.field_power xv 3 with
       | .error e => .error e
       | .ok x3 =>
         match FieldElement.mul a xv with
         | .error e => .error e
         | .ok ax =>
           match FieldElement.add ax b with
           | .error e => .error e
           | .ok axb =>
             match FieldElement.add x3 axb with
             | .error e => .error e
             | .ok rhs =>
               if y2 ≠ rhs then
                 Except.error ("(" ++ xv.fmtDisplay ++ "," ++ yv.fmtDisplay
                   ++ ") is not on the curve")
               else Except.ok ⟨a, b, some xv, some yv⟩)
  | _, _ => Except.ok ⟨a, b, x, y⟩

/-- `impl fmt::Display for Point` from `src/ecc/point.rs`: the source
unwraps both coordinates, so formatting a point with an absent coordinate
panics; the panic is modelled by `none`. -/
def Point.fmtDisplay (p : Point) : Option String :=
  match p.x, p.y with
  | some xv, some yv =>
    some ("(" ++ xv.fmtDisplay ++ ", " ++ yv.fmtDisplay ++ ", " ++
      p.a.fmtDisplay ++ ", " ++ p.b.fmtDisplay ++ ")")
  | _, _ => none

/-- The distinct-x (secant-line) branch of `impl Add for Point` in
`src/ecc/point.rs`: `s = (y2-y1)/(x2-x1)`, `x3 = s^2 - x1 - x2`,
`y3 = s*(x1-x3) - y1`, all through field operations, then `Point::new`. -/
def secantAdd (x1 y1 x2 y2 a b : FieldElement) : Except String Point :=
  match FieldElement.sub y2 y1 with
  | .error e => .error e
  | .ok d1 =>
    match FieldElement.sub x2 x1 with
    | .error e => .error e
    | .ok d2 =>
      match FieldElement.div d1 d2 with
      | .error e => .error e
      | .ok s =>
        match FieldElement.field_power s 2 with
        | .error e => .error e
        | .ok s2 =>
          match FieldElement.sub s2 x1 with
          | .error e => .error e
          | .ok t1 =>
            match FieldElement.sub t1 x2 with
            | .error e => .error e
            | .ok x3 =>
              match FieldElement.sub x1 x3 with
              | .error e => .error e
              | .ok u1 =>
                match FieldElement.mul s u1 with
                | .error e => .error e
                | .ok u2 =>
                  match FieldElement.sub u2 y1 with
                  | .error e => .error e
                  | .ok y3 => Point.new (some x3) (some y3) a b

/-- The equal-points (tangent) branch of `impl Add for Point` in
`src/ecc/point.rs`.  The slope numerator `3*x1^2 + a` and denominator
`2*y1` are taken as raw integers and combined with Rust integer division
`/` (`Int.tdiv`) before being fed to `FieldElement::new`; only the later
steps use field operations. -/
def doubleAdd (x1 y1 a b : FieldElement) : Except String Point :=
  match FieldElement.field_power x1 2 with
  | .error e => .error e
  | .ok xp =>
    match FieldElement.new ((3 * xp.num + a.num).tdiv (2 * y1.num)) x1.prime with
    | .error e => .error e
    | .ok s =>
      match FieldElement.field_power s 2 with
      | .error e => .error e
      | .ok s2 =>
        match FieldElement.new 2 x1.prime with
        | .error e => .error e
        | .ok two =>
          match FieldElement.mul two x1 with
          | .error e => .error e
          | .ok tx =>
            match FieldElement.sub s2 tx with
            | .error e => .error e
            | .ok x3 =>
              match FieldElement.sub x1 x3 with
              | .error e => .error e
              | .ok u1 =>
                match FieldElement.mul s u1 with
                | .error e => .error e
                | .ok u2 =>
                  match FieldElement.sub u2 y1 with
                  | .error e => .error e
                  | .ok y3 => Point.new (some x3) (some y3) a b

/-- `impl Add for Point` from `src/ecc/point.rs`, with the branches in
source order.  The overall result is wrapped in `Option`: `none` models a
panic.  Panics arise exactly where the source unwraps an `Option` that can
be `none`: formatting an operand inside the curve-mismatch error message,
and unwrapping `y` in the later branches (the source short-circuits
`self == other && self.y.unwrap().num == 0`, so the `y` unwrap runs only
when `self == other`; the two equal-points branches are merged below into
one `p = q` test, preserving that evaluation order). -/
def Point.add (p q : Point) : Option (Except String Point) :=
  if p.a ≠ q.a ∨ p.b ≠ q.b then
    match p.fmtDisplay, q.fmtDisplay with
    | some s1, some s2 =>
      some (Except.error ("Points " ++ s1 ++ ", " ++ s2 ++ " are not on the same curve"))
    | _, _ => none
  else if p.x = none then some (Except.ok q)
  else if q.x = none then some (Except.ok p)
  else if p.x = q.x ∧ p.y ≠ q.y then some (Point.new none none p.a p.b)
  else if p.x ≠ q.x then
    match p.x, q.x with
    | some x1, some x2 =>
      (match p.y, q.y with
       | some y1, some y2 => some (secantAdd x1 y1 x2 y2 p.a p.b)
       | _, _ => none)
    | _, _ => none
  else if p = q then
    match p.y with
    | some y1 =>
      if y1.num = 0 then some (Point.new none none p.a p.b)
      else
        match p.x with
        | some x1 => some (doubleAdd x1 y1 p.a p.b)
        | none => none
    | none => none
  else some (Except.error "")

/-- Wrapping into the i32 range with an explicit remainder mod 2^32: the
value a Rust i32 arithmetic result takes in release builds (two-complement
wraparound).  Debug builds abort on overflow instead; on every
overflow-free path the two behaviours coincide and `wrap32` is the
identity. -/
def wrap32 (v : Int) : Int := (v + 2 ^ 31).emod (2 ^ 32) - 2 ^ 31

/-- The `mod_exp` loop at i32 width: as `modExpFuel`, with both products
wrapped to the i32 range. -/
def modExpFuel32 (modulus : Int) : Nat → Int → Int → Int → Int
  | 0, _base, _exp, result => result
  | fuel + 1, base, exp, result =>
    if 0 < exp then
      modExpFuel32 modulus fuel ((wrap32 (base * base)).tmod modulus) (exp.tdiv 2)
        (if exp.tmod 2 = 1 then (wrap32 (result * base)).tmod modulus else result)
    else result

/-- `mod_exp` at i32 width. -/
def mod_exp32 (base exp modulus : Int) : Int :=
  modExpFuel32 modulus exp.toNat (base.tmod modulus) exp 1

namespace FieldElement

/-- `impl Add for FieldElement` at i32 width: every sum wrapped. -/
def add32 (a other : FieldElement) : Except String FieldElement :=
  if a.prime ≠ other.prime then
    .error "Can\x27t add two numbers from different Fields"
  else
    let num := (wrap32 (a.num + other.num)).tmod a.prime
    let num := if num < 0 then wrap32 (num + a.prime) else num
    new num a.prime

/-- `impl Sub for FieldElement` at i32 width. -/
def sub32 (a other : FieldElement) : Except String FieldElement :=
  if a.prime ≠ other.prime then
    .error "Can\x27t add two numbers from different Fields"
  else
    let num := (wrap32 (a.num - other.num)).tmod a.prime
    let num := if num < 0 then wrap32 (num + a.prime) else num
    new num a.prime

/-- `impl Div for FieldElement` at i32 width: the product with the
`mod_exp` inverse is wrapped. -/
def div32 (a other : FieldElement) : Except String FieldElement :=
  if a.prime ≠ other.prime then
    .error "Can\x27t divide two numbers from different Fields"
  else
    let num := (wrap32 (a.num * mod_exp32 other.num (a.prime - 2) a.prime)).tmod a.prime
    let num := if num < 0 then wrap32 (num + a.prime) else num
    new num a.prime

/-- `impl Mul for FieldElement` at i32 width. -/
def mul32 (a other : FieldElement) : Except String FieldElement :=
  if other.num ≥ a.prime then
    .error "All numbers should belong to same set"
  else
    let res := (wrap32 (a.num * other.num)).tmod a.prime
    let res := if res < 0 then wrap32 (res + a.prime) else res
    new res a.prime

/-- `FieldElement::field_power` at i32 width. -/
def field_power32 (e : FieldElement) (exponent : Int) : Except String FieldElement :=
  let n := exponent.emod (e.prime - 1)
  new (mod_exp32 e.num n e.prime) e.prime

end FieldElement

/-- `Point::new` at i32 width: the membership check runs on the wrapped
field operations. -/
def Point.new32 (x y : Option FieldElement) (a b : FieldElement) : Except String Point :=
  match x, y with
  | some xv, some yv =>
    (match FieldElement.field_power32 yv 2 with
     | .error e => .error e
     | .ok y2 =>
       match FieldElement.field_power32 xv 3 with
       | .error e => .error e
       | .ok x3 =>
         match FieldElement.mul32 a xv with
         | .error e => .error e
         | .ok ax =>
           match FieldElement.add32 ax b with
           | .error e => .error e
           | .ok axb =>
             match FieldElement.add32 x3 axb with
             | .error e => .error e
             | .ok rhs =>
               if y2 ≠ rhs then
                 Except.error ("(" ++ xv.fmtDisplay ++ "," ++ yv.fmtDisplay
                   ++ ") is not on the curve")
               else Except.ok ⟨a, b, some xv, some yv⟩)
  | _, _ => Except.ok ⟨a, b, x, y⟩

/-- The distinct-x branch of `impl Add for Point` at i32 width. -/
def secantAdd32 (x1 y1 x2 y2 a b : FieldElement) : Except String Point :=
  match FieldElement.sub32 y2 y1 with
  | .error e => .error e
  | .ok d1 =>
    match FieldElement.sub32 x2 x1 with
    | .error e => .error e
    | .ok d2 =>
      match FieldElement.div32 d1 d2 with
      | .error e => .error e
      | .ok s =>
        match FieldElement.field_power32 s 2 with
        | .error e => .error e
        | .ok s2 =>
          match FieldElement.sub32 s2 x1 with
          | .error e => .error e
          | .ok t1 =>
            match FieldElement.sub32 t1 x2 with
            | .error e => .error e
            | .ok x3 =>
              match FieldElement.sub32 x1 x3 with
              | .error e => .error e
              | .ok u1 =>
                match FieldElement.mul32 s u1 with
                | .error e => .error e
                | .ok u2 =>
                  match FieldElement.sub32 u2 y1 with
                  | .error e => .error e
                  | .ok y3 => Point.new32 (some x3) (some y3) a b

/-- The equal-points branch of `impl Add for Point` at i32 width.  The
slope numerator and denominator are wrapped before the integer division;
i32 division itself overflows only for MIN / -1, where Rust aborts in
every build profile (the model wraps that one unreachable-in-range
case). -/
def doubleAdd32 (x1 y1 a b : FieldElement) : Except String Point :=
  match FieldElement.field_power32 x1 2 with
  | .error e => .error e
  | .ok xp =>
    match FieldElement.new ((wrap32 (wrap32 (3 * xp.num) + a.num)).tdiv
        (wrap32 (2 * y1.num))) x1.prime with
    | .error e => .error e
    | .ok s =>
      match FieldElement.field_power32 s 2 with
      | .error e => .error e
      | .ok s2 =>
        match FieldElement.new 2 x1.prime with
        | .error e => .error e
        | .ok two =>
          match FieldElement.mul32 two x1 with
          | .error e => .error e
          | .ok tx =>
            match FieldElement.sub32 s2 tx with
            | .error e => .error e
            | .ok x3 =>
              match FieldElement.sub32 x1 x3 with
              | .error e => .error e
              | .ok u1 =>
                match FieldElement.mul32 s u1 with
                | .error e => .error e
                | .ok u2 =>
                  match FieldElement.sub32 u2 y1 with
                  | .error e => .error e
                  | .ok y3 => Point.new32 (some x3) (some y3) a b

/-- `impl Add for Point` at i32 width: branch for branch as `Point.add`,
with the wrapped operations throughout. -/
def Point.add32 (p q : Point) : Option (Except String Point) :=
  if p.a ≠ q.a ∨ p.b ≠ q.b then
    match p.fmtDisplay, q.fmtDisplay with
    | some s1, some s2 =>
      some (Except.error ("Points " ++ s1 ++ ", " ++ s2 ++ " are not on the same curve"))
    | _, _ => none
  else if p.x = none then some (Except.ok q)
  else if q.x = none then some (Except.ok p)
  else if p.x = q.x ∧ p.y ≠ q.y then some (Point.new32 none none p.a p.b)
  else if p.x ≠ q.x then
    match p.x, q.x with
    | some x1, some x2 =>
      (match p.y, q.y with
       | some y1, some y2 => some (secantAdd32 x1 y1 x2 y2 p.a p.b)
       | _, _ => none)
    | _, _ => none
  else if p = q then
    match p.y with
    | some y1 =>
      if y1.num = 0 then some (Point.new32 none none p.a p.b)
      else
        match p.x with
        | some x1 => some (doubleAdd32 x1 y1 p.a p.b)
        | none => none
    | none => none
  else some (Except.error "")

/-- Proof-layer abbreviation: the reduce-then-normalize step shared by the
arithmetic bodies of `FieldElement`: truncated remainder, then one
conditional `+ prime` for a negative remainder. -/
def redc (P v : Int) : Int :=
  let t := v.tmod P
  if t < 0 then t + P else t

/-- A `FieldElement` that satisfies the documented invariant of the spec
for the field of order `p`: its modulus is `p` and its residue lies in
`[0, p)`. -/
def ValidFE (p : ℕ) (e : FieldElement) : Prop :=
  e.prime = (p : Int) ∧ 0 ≤ e.num ∧ e.num < (p : Int)

/-- A `Point` that satisfies the documented invariants for the i32
program over the field of order `p`: valid coefficients, and coordinates
either both absent or both present, in range, and accepted by the
membership check of `Point.new32`. -/
def ValidPoint32 (p : ℕ) (pt : Point) : Prop :=
  ValidFE p pt.a ∧ ValidFE p pt.b ∧
  ((pt.x = none ∧ pt.y = none) ∨
    ∃ xv yv, pt.x = some xv ∧ pt.y = some yv ∧ ValidFE p xv ∧ ValidFE p yv ∧
      Point.new32 pt.x pt.y pt.a pt.b = Except.ok pt)

/-- Observer for the catch-all branch: is the result the unlabeled
empty-string error that the final `else` of `impl Add for Point`
returns? -/
def isDegenerateErr : Option (Except String Point) → Bool
  | some (.error m) => m == ""
  | _ => false

theorem tmod_neg_left (a b : Int) : (-a).tmod b = -(a.tmod b) := by
  rw [Int.tmod_def, Int.tmod_def, Int.neg_tdiv]; ring

theorem neg_lt_tmod (v : Int) {P : Int} (hP : 0 < P) : -P < v.tmod P := by
  rcases le_or_lt 0 v with h | h
  · have h1 := Int.tmod_nonneg P h; omega
  · have h2 : v.tmod P = -((-v).tmod P) := by
      rw [← tmod_neg_left, neg_neg]
    have h3 := Int.tmod_lt_of_pos (-v) hP
    omega

theorem redc_nonneg {P : Int} (hP : 0 < P) (v : Int) : 0 ≤ redc P v := by
  unfold redc
  have := neg_lt_tmod v hP
  dsimp only
  split <;> omega

theorem redc_lt {P : Int} (hP : 0 < P) (v : Int) : redc P v < P := by
  unfold redc
  have h1 := Int.tmod_lt_of_pos v hP
  have h2 := neg_lt_tmod v hP
  dsimp only
  split <;> omega

section CastLemmas
variable {p : ℕ}

theorem cast_tmod (v : Int) : ((v.tmod (p : ℤ) : ℤ) : ZMod p) = (v : ZMod p) := by
  conv_rhs => rw [← Int.tmod_add_tdiv v (p : ℤ)]
  push_cast
  simp [ZMod.natCast_self]

theorem cast_redc (v : Int) : ((redc (p : ℤ) v : ℤ) : ZMod p) = (v : ZMod p) := by
  unfold redc
  dsimp only
  split
  · push_cast
    rw [cast_tmod]
    simp [ZMod.natCast_self]
  · exact cast_tmod v

theorem eq_of_cast_eq {a b : Int} (ha0 : 0 ≤ a) (ha1 : a < (p : ℤ))
    (hb0 : 0 ≤ b) (hb1 : b < (p : ℤ))
    (h : ((a : ℤ) : ZMod p) = ((b : ℤ) : ZMod p)) : a = b := by
  rw [ZMod.intCast_eq_intCast_iff'] at h
  rwa [Int.emod_eq_of_lt ha0 ha1, Int.emod_eq_of_lt hb0 hb1] at h

theorem cast_modExpFuel (fuel : Nat) (base exp result : Int)
    (hexp : exp.toNat ≤ fuel) :
    ((modExpFuel (p : ℤ) fuel base exp result : ℤ) : ZMod p) =
      (result : ZMod p) * (base : ZMod p) ^ exp.toNat := by
  induction fuel generalizing base exp result with
  | zero =>
    have h0 : exp.toNat = 0 := Nat.le_zero.mp hexp
    rw [modExpFuel, h0, pow_zero, mul_one]
  | succ n ih =>
    rw [modExpFuel]
    by_cases hpos : 0 < exp
    · rw [if_pos hpos]
      have hd : exp.tdiv 2 = exp / 2 := Int.tdiv_eq_ediv (le_of_lt hpos) (by omega)
      have htm : exp.tmod 2 = exp % 2 := Int.tmod_eq_emod (le_of_lt hpos) (by omega)
      have hle : (exp.tdiv 2).toNat ≤ n := by rw [hd]; omega
      rw [ih _ _ _ hle]
      have hsq : (((base * base).tmod (p : ℤ) : ℤ) : ZMod p) = ((base : ZMod p)) ^ 2 := by
        rw [cast_tmod]; push_cast; ring
      have hsplit : exp.toNat = 2 * (exp.tdiv 2).toNat + (exp.tmod 2).toNat := by
        rw [hd, htm]; omega
      by_cases hbit : exp.tmod 2 = 1
      · rw [if_pos hbit, cast_tmod, hsq, hsplit, hbit]
        push_cast
        rw [pow_add, pow_mul, pow_one]
        ring
      · rw [if_neg hbit, hsq, hsplit]
        have hz : exp.tmod 2 = 0 := by rw [htm]; rw [htm] at hbit; omega
        rw [hz]
        simp [pow_mul]
    · rw [if_neg hpos]
      have h0 : exp.toNat = 0 := by omega
      rw [h0, pow_zero, mul_one]

theorem cast_mod_exp (b e : Int) :
    ((mod_exp b e (p : ℤ) : ℤ) : ZMod p) = (b : ZMod p) ^ e.toNat := by
  unfold mod_exp
  rw [cast_modExpFuel _ _ _ _ (le_refl _), cast_tmod]
  simp

end CastLemmas

-- ZMod algebra for the slope symmetry
theorem neg_one_pow_card_sub_one (p : ℕ) (hp : p.Prime) :
    ((-1 : ZMod p)) ^ (p - 1) = 1 := by
  rcases hp.eq_two_or_odd' with h2 | hodd
  · subst h2; decide
  · have : Even (p - 1) := Nat.Odd.sub_odd hodd odd_one
    exact this.neg_one_pow

theorem zmod_slope_symm {p : ℕ} (hp : p.Prime) (X Y : ZMod p) :
    (-Y) * (-X) ^ (p - 2) = Y * X ^ (p - 2) := by
  have h2 : 2 ≤ p := hp.two_le
  have h1 : 1 + (p - 2) = p - 1 := by omega
  rw [neg_pow]
  have : (-Y) * ((-1 : ZMod p) ^ (p - 2) * X ^ (p - 2)) =
      ((-1 : ZMod p) ^ (1 + (p - 2))) * (Y * X ^ (p - 2)) := by
    rw [pow_add, pow_one]; ring
  rw [this, h1, neg_one_pow_card_sub_one p hp, one_mul]

theorem zmod_secant_relation {p : ℕ} [Fact p.Prime] (A1 A2 B1 B2 : ZMod p)
    (h : A2 - A1 ≠ 0) :
    ((B2 - B1) * (A2 - A1) ^ (p - 2)) * (A1 - A2) = B1 - B2 := by
  have h2 : 2 ≤ p := (Fact.out : p.Prime).two_le
  have hf : (A2 - A1) ^ (p - 1) = 1 := ZMod.pow_card_sub_one_eq_one h
  have hstep : ((B2 - B1) * (A2 - A1) ^ (p - 2)) * (A1 - A2) =
      -((B2 - B1) * ((A2 - A1) ^ (p - 2) * (A2 - A1))) := by ring
  rw [hstep, ← pow_succ]
  have hpe : p - 2 + 1 = p - 1 := by omega
  rw [hpe, hf, mul_one]
  ring

-- Op spec lemmas
theorem new_ok {n P : Int} (h0 : 0 ≤ n) (h1 : n < P) :
    FieldElement.new n P = .ok ⟨n, P⟩ := by
  simp only [FieldElement.new]
  rw [Int.tmod_eq_of_lt h0 h1, if_neg (not_le.mpr h1)]

theorem new_ok_tmod {P : Int} (hP : 0 < P) (n : Int) :
    FieldElement.new n P = .ok ⟨n.tmod P, P⟩ := by
  have h := Int.tmod_lt_of_pos n hP
  simp only [FieldElement.new]
  rw [if_neg (not_le.mpr h)]

theorem sub_ok {P : Int} (hP : 0 < P) (a b : FieldElement)
    (ha : a.prime = P) (hb : b.prime = P) :
    FieldElement.sub a b = .ok ⟨redc P (a.num - b.num), P⟩ := by
  simp only [FieldElement.sub, ha, hb, ne_eq, not_true_eq_false, if_false]
  show FieldElement.new (redc P (a.num - b.num)) P = _
  rw [new_ok (redc_nonneg hP _) (redc_lt hP _)]

theorem div_ok {P : Int} (hP : 0 < P) (a b : FieldElement)
    (ha : a.prime = P) (hb : b.prime = P) :
    FieldElement.div a b =
      .ok ⟨redc P (a.num * mod_exp b.num (P - 2) P), P⟩ := by
  simp only [FieldElement.div, ha, hb, ne_eq, not_true_eq_false, if_false]
  show FieldElement.new (redc P (a.num * mod_exp b.num (P - 2) P)) P = _
  rw [new_ok (redc_nonneg hP _) (redc_lt hP _)]

theorem mul_ok {P : Int} (hP : 0 < P) (a b : FieldElement)
    (ha : a.prime = P) (hlt : b.num < P) :
    FieldElement.mul a b = .ok ⟨redc P (a.num * b.num), P⟩ := by
  simp only [FieldElement.mul, ha]
  rw [if_neg (not_le.mpr hlt)]
  show FieldElement.new (redc P (a.num * b.num)) P = _
  rw [new_ok (redc_nonneg hP _) (redc_lt hP _)]

theorem field_power_ok {P : Int} (hP : 0 < P) (e : FieldElement)
    (he : e.prime = P) (k : Int) :
    FieldElement.field_power e k =
      .ok ⟨(mod_exp e.num (k.emod (P - 1)) P).tmod P, P⟩ := by
  simp only [FieldElement.field_power, he]
  exact new_ok_tmod hP _

theorem redc_sub_sub_comm {p : ℕ} (hP : (0 : ℤ) < (p : ℤ)) (w u v : Int) :
    redc (p : ℤ) (redc (p : ℤ) (w - u) - v) =
      redc (p : ℤ) (redc (p : ℤ) (w - v) - u) := by
  apply eq_of_cast_eq (redc_nonneg hP _) (redc_lt hP _)
    (redc_nonneg hP _) (redc_lt hP _)
  simp only [Int.cast_sub, cast_redc]
  ring

theorem y3_comm {p : ℕ} (hp : p.Prime) (x1n y1n x2n y2n X3 : Int)
    (hx1l : 0 ≤ x1n) (hx1u : x1n < (p : ℤ))
    (hx2l : 0 ≤ x2n) (hx2u : x2n < (p : ℤ))
    (hne : x1n ≠ x2n) :
    redc (p : ℤ) (redc (p : ℤ) (redc (p : ℤ) (redc (p : ℤ) (y1n - y2n) *
        mod_exp (redc (p : ℤ) (x1n - x2n)) ((p : ℤ) - 2) (p : ℤ)) *
        redc (p : ℤ) (x1n - X3)) - y1n) =
    redc (p : ℤ) (redc (p : ℤ) (redc (p : ℤ) (redc (p : ℤ) (y1n - y2n) *
        mod_exp (redc (p : ℤ) (x1n - x2n)) ((p : ℤ) - 2) (p : ℤ)) *
        redc (p : ℤ) (x2n - X3)) - y2n) := by
  haveI : Fact p.Prime := ⟨hp⟩
  have h2 : 2 ≤ p := hp.two_le
  have hPexp : (((p : ℤ)) - 2).toNat = p - 2 := by omega
  have hAne : ((x1n : ZMod p) - (x2n : ZMod p)) ≠ 0 := by
    intro h
    exact hne (eq_of_cast_eq hx1l hx1u hx2l hx2u (sub_eq_zero.mp h))
  apply eq_of_cast_eq (redc_nonneg (by exact_mod_cast hp.pos) _)
    (redc_lt (by exact_mod_cast hp.pos) _)
    (redc_nonneg (by exact_mod_cast hp.pos) _)
    (redc_lt (by exact_mod_cast hp.pos) _)
  simp only [Int.cast_mul, Int.cast_sub, cast_redc, cast_mod_exp]
  rw [hPexp]
  -- abbreviate
  set A1 : ZMod p := (x1n : ZMod p) with hA1
  set A2 : ZMod p := (x2n : ZMod p) with hA2
  set B1 : ZMod p := (y1n : ZMod p) with hB1
  set B2 : ZMod p := (y2n : ZMod p) with hB2
  set W : ZMod p := (X3 : ZMod p) with hW
  have hrel : ((B1 - B2) * (A1 - A2) ^ (p - 2)) * (A2 - A1) = B2 - B1 :=
    zmod_secant_relation A2 A1 B2 B1 hAne
  have expand : (B1 - B2) * (A1 - A2) ^ (p - 2) * (A1 - W) - B1 -
      ((B1 - B2) * (A1 - A2) ^ (p - 2) * (A2 - W) - B2) =
      -(((B1 - B2) * (A1 - A2) ^ (p - 2)) * (A2 - A1)) - (B1 - B2) := by
    ring
  have : (B1 - B2) * (A1 - A2) ^ (p - 2) * (A1 - W) - B1 =
      (B1 - B2) * (A1 - A2) ^ (p - 2) * (A2 - W) - B2 := by
    have h0 : -(((B1 - B2) * (A1 - A2) ^ (p - 2)) * (A2 - A1)) - (B1 - B2) = 0 := by
      rw [hrel]; ring
    have := expand.trans h0
    linear_combination this
  linear_combination this

-- Agreement of the wrapped model with the unbounded one below the overflow threshold.
theorem wrap32_eq {v : Int} (h1 : -(2 ^ 31) ≤ v) (h2 : v < 2 ^ 31) : wrap32 v = v := by
  unfold wrap32
  have h3 : (v + 2 ^ 31).emod (2 ^ 32) = v + 2 ^ 31 :=
    Int.emod_eq_of_lt (by omega) (by omega)
  omega

theorem mul_bound32 {P x y : Int} (h46 : P ≤ 46340)
    (hx0 : 0 ≤ x) (hx1 : x < P) (hy0 : 0 ≤ y) (hy1 : y < P) : x * y < 2 ^ 31 := by
  have e1 : x * y ≤ (P - 1) * (P - 1) :=
    mul_le_mul (by omega) (by omega) hy0 (by omega)
  have e2 : (P - 1) * (P - 1) ≤ 46339 * 46339 :=
    mul_le_mul (by omega) (by omega) (by omega) (by omega)
  omega

theorem modExpFuel32_eq {P : Int} (h2 : 2 ≤ P) (h46 : P ≤ 46340) :
    ∀ (fuel : Nat) (base exp result : Int),
      0 ≤ base → base < P → 0 ≤ result → result < P →
      modExpFuel32 P fuel base exp result = modExpFuel P fuel base exp result := by
  intro fuel
  induction fuel with
  | zero => intro base exp result _ _ _ _; rfl
  | succ n ih =>
    intro base exp result hb0 hb1 hr0 hr1
    rw [modExpFuel32, modExpFuel]
    by_cases hpos : 0 < exp
    · rw [if_pos hpos, if_pos hpos]
      have hP0 : (0 : ℤ) < P := by omega
      have hbb : wrap32 (base * base) = base * base :=
        wrap32_eq (by have := mul_nonneg hb0 hb0; omega)
          (mul_bound32 h46 hb0 hb1 hb0 hb1)
      rw [hbb]
      by_cases hbit : exp.tmod 2 = 1
      · rw [if_pos hbit, if_pos hbit]
        have hrb : wrap32 (result * base) = result * base :=
          wrap32_eq (by have := mul_nonneg hr0 hb0; omega)
            (mul_bound32 h46 hr0 hr1 hb0 hb1)
        rw [hrb]
        exact ih _ _ _ (Int.tmod_nonneg _ (by positivity))
          (Int.tmod_lt_of_pos _ hP0) (Int.tmod_nonneg _ (by positivity))
          (Int.tmod_lt_of_pos _ hP0)
      · rw [if_neg hbit, if_neg hbit]
        exact ih _ _ _ (Int.tmod_nonneg _ (by positivity))
          (Int.tmod_lt_of_pos _ hP0) hr0 hr1
    · rw [if_neg hpos, if_neg hpos]

theorem mod_exp32_eq {P : Int} (h2 : 2 ≤ P) (h46 : P ≤ 46340)
    {b : Int} (e : Int) (hb0 : 0 ≤ b) (hb1 : b < P) :
    mod_exp32 b e P = mod_exp b e P := by
  unfold mod_exp32 mod_exp
  rw [Int.tmod_eq_of_lt hb0 hb1]
  exact modExpFuel32_eq h2 h46 _ _ _ _ hb0 hb1 (by omega) (by omega)

theorem modExpFuel_bounds {P : Int} (hP : 0 < P) :
    ∀ (fuel : Nat) (base exp result : Int),
      0 ≤ base → 0 ≤ result → result < P →
      0 ≤ modExpFuel P fuel base exp result ∧
        modExpFuel P fuel base exp result < P := by
  intro fuel
  induction fuel with
  | zero => intro base exp result _ hr0 hr1; exact ⟨hr0, hr1⟩
  | succ n ih =>
    intro base exp result hb0 hr0 hr1
    rw [modExpFuel]
    by_cases hpos : 0 < exp
    · rw [if_pos hpos]
      by_cases hbit : exp.tmod 2 = 1
      · rw [if_pos hbit]
        exact ih _ _ _ (Int.tmod_nonneg _ (by positivity))
          (Int.tmod_nonneg _ (by positivity)) (Int.tmod_lt_of_pos _ hP)
      · rw [if_neg hbit]
        exact ih _ _ _ (Int.tmod_nonneg _ (by positivity)) hr0 hr1
    · rw [if_neg hpos]
      exact ⟨hr0, hr1⟩

theorem mod_exp_bounds {P : Int} (h2 : 2 ≤ P) {b : Int} (e : Int) (hb : 0 ≤ b) :
    0 ≤ mod_exp b e P ∧ mod_exp b e P < P := by
  unfold mod_exp
  exact modExpFuel_bounds (by omega) _ _ _ _ (Int.tmod_nonneg _ hb) (by omega)
    (by omega)

theorem modexp_tmod_nonneg {P : Int} (h2 : 2 ≤ P) {b : Int} (hb : 0 ≤ b) (e : Int) :
    0 ≤ (mod_exp b e P).tmod P :=
  Int.tmod_nonneg _ (mod_exp_bounds h2 e hb).1

theorem modexp_tmod_lt {P : Int} (h2 : 2 ≤ P) (b e : Int) :
    (mod_exp b e P).tmod P < P :=
  Int.tmod_lt_of_pos _ (by omega)

theorem sub32_ok {P : Int} (h2 : 2 ≤ P) (h46 : P ≤ 46340) (a b : FieldElement)
    (ha : a.prime = P) (hb : b.prime = P)
    (ha0 : 0 ≤ a.num) (ha1 : a.num < P) (hb0 : 0 ≤ b.num) (hb1 : b.num < P) :
    FieldElement.sub32 a b = .ok ⟨redc P (a.num - b.num), P⟩ := by
  simp only [FieldElement.sub32, ha, hb, ne_eq, not_true_eq_false, if_false]
  have hw : wrap32 (a.num - b.num) = a.num - b.num := wrap32_eq (by omega) (by omega)
  rw [hw]
  have hP0 : (0 : ℤ) < P := by omega
  have ht1 := neg_lt_tmod (a.num - b.num) hP0
  have ht2 := Int.tmod_lt_of_pos (a.num - b.num) hP0
  have hbody : (if (a.num - b.num).tmod P < 0 then
        wrap32 ((a.num - b.num).tmod P + P) else (a.num - b.num).tmod P) =
      redc P (a.num - b.num) := by
    by_cases hneg : (a.num - b.num).tmod P < 0
    · rw [if_pos hneg, wrap32_eq (by omega) (by omega)]
      simp only [redc]
      rw [if_pos hneg]
    · rw [if_neg hneg]
      simp only [redc]
      rw [if_neg hneg]
  rw [hbody, new_ok (redc_nonneg hP0 _) (redc_lt hP0 _)]

theorem div32_ok {P : Int} (h2 : 2 ≤ P) (h46 : P ≤ 46340) (a b : FieldElement)
    (ha : a.prime = P) (hb : b.prime = P)
    (ha0 : 0 ≤ a.num) (ha1 : a.num < P) (hb0 : 0 ≤ b.num) (hb1 : b.num < P) :
    FieldElement.div32 a b =
      .ok ⟨redc P (a.num * mod_exp b.num (P - 2) P), P⟩ := by
  simp only [FieldElement.div32, ha, hb, ne_eq, not_true_eq_false, if_false]
  rw [mod_exp32_eq h2 h46 _ hb0 hb1]
  have hm := mod_exp_bounds h2 (P - 2) hb0
  have hw : wrap32 (a.num * mod_exp b.num (P - 2) P) =
      a.num * mod_exp b.num (P - 2) P :=
    wrap32_eq (by have := mul_nonneg ha0 hm.1; omega)
      (mul_bound32 h46 ha0 ha1 hm.1 hm.2)
  rw [hw]
  have hP0 : (0 : ℤ) < P := by omega
  have ht1 := neg_lt_tmod (a.num * mod_exp b.num (P - 2) P) hP0
  have ht2 := Int.tmod_lt_of_pos (a.num * mod_exp b.num (P - 2) P) hP0
  have hbody : (if (a.num * mod_exp b.num (P - 2) P).tmod P < 0 then
        wrap32 ((a.num * mod_exp b.num (P - 2) P).tmod P + P)
      else (a.num * mod_exp b.num (P - 2) P).tmod P) =
      redc P (a.num * mod_exp b.num (P - 2) P) := by
    by_cases hneg : (a.num * mod_exp b.num (P - 2) P).tmod P < 0
    · rw [if_pos hneg, wrap32_eq (by omega) (by omega)]
      simp only [redc]
      rw [if_pos hneg]
    · rw [if_neg hneg]
      simp only [redc]
      rw [if_neg hneg]
  rw [hbody, new_ok (redc_nonneg hP0 _) (redc_lt hP0 _)]

theorem mul32_ok {P : Int} (h2 : 2 ≤ P) (h46 : P ≤ 46340) (a b : FieldElement)
    (ha : a.prime = P)
    (ha0 : 0 ≤ a.num) (ha1 : a.num < P) (hb0 : 0 ≤ b.num) (hb1 : b.num < P) :
    FieldElement.mul32 a b = .ok ⟨redc P (a.num * b.num), P⟩ := by
  simp only [FieldElement.mul32, ha]
  rw [if_neg (not_le.mpr hb1)]
  have hw : wrap32 (a.num * b.num) = a.num * b.num :=
    wrap32_eq (by have := mul_nonneg ha0 hb0; omega)
      (mul_bound32 h46 ha0 ha1 hb0 hb1)
  rw [hw]
  have hP0 : (0 : ℤ) < P := by omega
  have ht1 := neg_lt_tmod (a.num * b.num) hP0
  have ht2 := Int.tmod_lt_of_pos (a.num * b.num) hP0
  have hbody : (if (a.num * b.num).tmod P < 0 then
        wrap32 ((a.num * b.num).tmod P + P) else (a.num * b.num).tmod P) =
      redc P (a.num * b.num) := by
    by_cases hneg : (a.num * b.num).tmod P < 0
    · rw [if_pos hneg, wrap32_eq (by omega) (by omega)]
      simp only [redc]
      rw [if_pos hneg]
    · rw [if_neg hneg]
      simp only [redc]
      rw [if_neg hneg]
  rw [hbody, new_ok (redc_nonneg hP0 _) (redc_lt hP0 _)]

theorem field_power32_ok {P : Int} (h2 : 2 ≤ P) (h46 : P ≤ 46340)
    (e : FieldElement) (he : e.prime = P) (he0 : 0 ≤ e.num) (he1 : e.num < P)
    (k : Int) :
    FieldElement.field_power32 e k =
      .ok ⟨(mod_exp e.num (k.emod (P - 1)) P).tmod P, P⟩ := by
  simp only [FieldElement.field_power32, he]
  rw [mod_exp32_eq h2 h46 _ he0 he1]
  exact new_ok_tmod (by omega) _

theorem secantAdd32_comm {p : ℕ} (hp : p.Prime) (h46 : (p : ℤ) ≤ 46340)
    (x1 y1 x2 y2 a b : FieldElement)
    (hx1p : x1.prime = (p : ℤ)) (hx2p : x2.prime = (p : ℤ))
    (hy1p : y1.prime = (p : ℤ)) (hy2p : y2.prime = (p : ℤ))
    (hx1l : 0 ≤ x1.num) (hx1u : x1.num < (p : ℤ))
    (hx2l : 0 ≤ x2.num) (hx2u : x2.num < (p : ℤ))
    (hy1l : 0 ≤ y1.num) (hy1u : y1.num < (p : ℤ))
    (hy2l : 0 ≤ y2.num) (hy2u : y2.num < (p : ℤ))
    (hne : x1.num ≠ x2.num) :
    secantAdd32 x1 y1 x2 y2 a b = secantAdd32 x2 y2 x1 y1 a b := by
  haveI : Fact p.Prime := ⟨hp⟩
  have hP0 : (0 : ℤ) < (p : ℤ) := by exact_mod_cast hp.pos
  have h2 : 2 ≤ p := hp.two_le
  have h2i : (2 : ℤ) ≤ (p : ℤ) := by exact_mod_cast h2
  have hPexp : (((p : ℤ)) - 2).toNat = p - 2 := by omega
  -- the slope is symmetric in the two operands
  have hs : redc (p : ℤ) (redc (p : ℤ) (y2.num - y1.num) *
        mod_exp (redc (p : ℤ) (x2.num - x1.num)) ((p : ℤ) - 2) (p : ℤ)) =
      redc (p : ℤ) (redc (p : ℤ) (y1.num - y2.num) *
        mod_exp (redc (p : ℤ) (x1.num - x2.num)) ((p : ℤ) - 2) (p : ℤ)) := by
    apply eq_of_cast_eq (redc_nonneg hP0 _) (redc_lt hP0 _)
      (redc_nonneg hP0 _) (redc_lt hP0 _)
    simp only [Int.cast_mul, Int.cast_sub, cast_redc, cast_mod_exp]
    rw [hPexp]
    have e1 : ((y1.num : ZMod p) - (y2.num : ZMod p)) =
        -((y2.num : ZMod p) - (y1.num : ZMod p)) := by ring
    have e2 : ((x1.num : ZMod p) - (x2.num : ZMod p)) =
        -((x2.num : ZMod p) - (x1.num : ZMod p)) := by ring
    rw [e1, e2, zmod_slope_symm hp]
  unfold secantAdd32
  rw [sub32_ok h2i h46 y2 y1 hy2p hy1p hy2l hy2u hy1l hy1u,
      sub32_ok h2i h46 y1 y2 hy1p hy2p hy1l hy1u hy2l hy2u,
      sub32_ok h2i h46 x2 x1 hx2p hx1p hx2l hx2u hx1l hx1u,
      sub32_ok h2i h46 x1 x2 hx1p hx2p hx1l hx1u hx2l hx2u]
  simp only [div32_ok h2i h46, redc_nonneg hP0, redc_lt hP0]
  rw [hs]
  simp only [field_power32_ok h2i h46, redc_nonneg hP0, redc_lt hP0]
  simp only [sub32_ok h2i h46, mul32_ok h2i h46, hx1p, hx2p, hy1p, hy2p,
    hx1l, hx1u, hx2l, hx2u, hy1l, hy1u, hy2l, hy2u,
    redc_nonneg hP0, redc_lt hP0, modexp_tmod_nonneg h2i, modexp_tmod_lt h2i]
  rw [redc_sub_sub_comm hP0]
  rw [y3_comm hp x1.num y1.num x2.num y2.num _ hx1l hx1u hx2l hx2u hne]

theorem err_prop {β : Type} (e : String) {α : Type} (r : Except String α)
    (hr : r ≠ .error "") (h : r = .error e) :
    (Except.error e : Except String β) ≠ .error "" := by
  intro hc
  injection hc with h'
  exact hr (by rw [h, h'])

theorem new_ne (n P : Int) : FieldElement.new n P ≠ .error "" := by
  unfold FieldElement.new
  dsimp only
  split
  · intro h
    injection h with h'
    have hl := congrArg String.length h'
    simp only [String.length_append] at hl
    have h4 : ("Num ".length) = 4 := by decide
    have h0 : ("".length) = 0 := by decide
    omega
  · simp

theorem sub_ne (a b : FieldElement) : FieldElement.sub a b ≠ .error "" := by
  unfold FieldElement.sub
  split
  · intro h; injection h with h'; exact absurd h' (by decide)
  · apply new_ne

theorem div_ne (a b : FieldElement) : FieldElement.div a b ≠ .error "" := by
  unfold FieldElement.div
  split
  · intro h; injection h with h'; exact absurd h' (by decide)
  · apply new_ne

theorem mul_ne (a b : FieldElement) : FieldElement.mul a b ≠ .error "" := by
  unfold FieldElement.mul
  split
  · intro h; injection h with h'; exact absurd h' (by decide)
  · apply new_ne

theorem field_power_ne (e : FieldElement) (k : Int) :
    FieldElement.field_power e k ≠ .error "" := by
  unfold FieldElement.field_power
  apply new_ne

theorem fe_add_ne (a b : FieldElement) : FieldElement.add a b ≠ .error "" := by
  unfold FieldElement.add
  split
  · intro h; injection h with h'; exact absurd h' (by decide)
  · apply new_ne

theorem point_new_ne (x y : Option FieldElement) (a b : FieldElement) :
    Point.new x y a b ≠ .error "" := by
  unfold Point.new
  cases x with
  | none => cases y <;> simp
  | some xv =>
    cases y with
    | none => simp
    | some yv =>
      dsimp only
      cases h1 : FieldElement.field_power yv 2 with
      | error e => exact err_prop e _ (field_power_ne yv 2) h1
      | ok y2 =>
      dsimp only
      cases h2 : FieldElement.field_power xv 3 with
      | error e => exact err_prop e _ (field_power_ne xv 3) h2
      | ok x3 =>
      dsimp only
      cases h3 : FieldElement.mul a xv with
      | error e => exact err_prop e _ (mul_ne a xv) h3
      | ok ax =>
      dsimp only
      cases h4 : FieldElement.add ax b with
      | error e => exact err_prop e _ (fe_add_ne ax b) h4
      | ok axb =>
      dsimp only
      cases h5 : FieldElement.add x3 axb with
      | error e => exact err_prop e _ (fe_add_ne x3 axb) h5
      | ok rhs =>
      dsimp only
      split
      · intro h
        injection h with h'
        have hl := congrArg String.length h'
        simp only [String.length_append] at hl
        have hp1 : ("(".length) = 1 := by decide
        have h0 : ("".length) = 0 := by decide
        omega
      · simp

theorem secantAdd_ne (x1 y1 x2 y2 a b : FieldElement) :
    secantAdd x1 y1 x2 y2 a b ≠ .error "" := by
  unfold secantAdd
  cases h1 : FieldElement.sub y2 y1 with
  | error e => exact err_prop e _ (sub_ne y2 y1) h1
  | ok d1 =>
  dsimp only
  cases h2 : FieldElement.sub x2 x1 with
  | error e => exact err_prop e _ (sub_ne x2 x1) h2
  | ok d2 =>
  dsimp only
  cases h3 : FieldElement.div d1 d2 with
  | error e => exact err_prop e _ (div_ne d1 d2) h3
  | ok s =>
  dsimp only
  cases h4 : FieldElement.field_power s 2 with
  | error e => exact err_prop e _ (field_power_ne s 2) h4
  | ok s2 =>
  dsimp only
  cases h5 : FieldElement.sub s2 x1 with
  | error e => exact err_prop e _ (sub_ne s2 x1) h5
  | ok t1 =>
  dsimp only
  cases h6 : FieldElement.sub t1 x2 with
  | error e => exact err_prop e _ (sub_ne t1 x2) h6
  | ok x3 =>
  dsimp only
  cases h7 : FieldElement.sub x1 x3 with
  | error e => exact err_prop e _ (sub_ne x1 x3) h7
  | ok u1 =>
  dsimp only
  cases h8 : FieldElement.mul s u1 with
  | error e => exact err_prop e _ (mul_ne s u1) h8
  | ok u2 =>
  dsimp only
  cases h9 : FieldElement.sub u2 y1 with
  | error e => exact err_prop e _ (sub_ne u2 y1) h9
  | ok y3 =>
    dsimp only
    exact point_new_ne _ _ _ _

theorem doubleAdd_ne (x1 y1 a b : FieldElement) :
    doubleAdd x1 y1 a b ≠ .error "" := by
  unfold doubleAdd
  cases h1 : FieldElement.field_power x1 2 with
  | error e => exact err_prop e _ (field_power_ne x1 2) h1
  | ok xp =>
  dsimp only
  cases h2 : FieldElement.new ((3 * xp.num + a.num).tdiv (2 * y1.num)) x1.prime with
  | error e => exact err_prop e _ (new_ne _ _) h2
  | ok s =>
  dsimp only
  cases h3 : FieldElement.field_power s 2 with
  | error e => exact err_prop e _ (field_power_ne s 2) h3
  | ok s2 =>
  dsimp only
  cases h4 : FieldElement.new 2 x1.prime with
  | error e => exact err_prop e _ (new_ne _ _) h4
  | ok two =>
  dsimp only
  cases h5 : FieldElement.mul two x1 with
  | error e => exact err_prop e _ (mul_ne two x1) h5
  | ok tx =>
  dsimp only
  cases h6 : FieldElement.sub s2 tx with
  | error e => exact err_prop e _ (sub_ne s2 tx) h6
  | ok x3 =>
  dsimp only
  cases h7 : FieldElement.sub x1 x3 with
  | error e => exact err_prop e _ (sub_ne x1 x3) h7
  | ok u1 =>
  dsimp only
  cases h8 : FieldElement.mul s u1 with
  | error e => exact err_prop e _ (mul_ne s u1) h8
  | ok u2 =>
  dsimp only
  cases h9 : FieldElement.sub u2 y1 with
  | error e => exact err_prop e _ (sub_ne u2 y1) h9
  | ok y3 =>
    dsimp only
    exact point_new_ne _ _ _ _

theorem isDegenerateErr_of_ne {r : Except String Point} (h : r ≠ .error "") :
    isDegenerateErr (some r) = false := by
  cases r with
  | error m =>
    show (m == "") = false
    exact beq_eq_false_iff_ne.mpr fun hm => h (by rw [hm])
  | ok v => rfl


/-- Claim C1: the tangent-line doubling branch of `Point` addition is
claimed to compute the slope `(3*x1^2 + a) / (2*y1)` entirely via field
division.  The source instead divides the raw integer residues with
truncated integer division.  Evaluating the code: `(192, 105)` lies on the
curve `y^2 = x^3 + 7` over `F_223` (it is accepted by `Point::new`), yet
adding it to itself errors out with a not-on-the-curve report for the
miscomputed point `(62, 118)`; field division would give the valid
doubling `(49, 7)`.  This contradicts the group law the case analysis is
documented to implement. -/
theorem claim_C1_doubling_integer_division :
    Point.new (some ⟨192, 223⟩) (some ⟨105, 223⟩) ⟨0, 223⟩ ⟨7, 223⟩ =
      .ok ⟨⟨0, 223⟩, ⟨7, 223⟩, some ⟨192, 223⟩, some ⟨105, 223⟩⟩ ∧
    Point.add ⟨⟨0, 223⟩, ⟨7, 223⟩, some ⟨192, 223⟩, some ⟨105, 223⟩⟩
        ⟨⟨0, 223⟩, ⟨7, 223⟩, some ⟨192, 223⟩, some ⟨105, 223⟩⟩ =
      some (.error "(62,118) is not on the curve") := by
  constructor
  · decide
  · decide

/-- Claim C2: dividing by the zero residue is claimed to always return an
error.  The source has no zero check: `mod_exp(0, prime-2, prime)` is `0`,
so `3/0` in `F_7` silently returns the field element `0`. -/
theorem claim_C2_div_by_zero_returns_ok :
    FieldElement.div ⟨3, 7⟩ ⟨0, 7⟩ = .ok ⟨0, 7⟩ := by decide

/-- Claim C3: construction is claimed to reduce every integer into
`[0, prime)` or fail with an out-of-range error.  The truncated `%` of the
source maps `-5 mod 13` to `-5`, and the guard only checks the upper
bound, so a `FieldElement` carrying a negative residue is produced. -/
theorem claim_C3_negative_residue :
    FieldElement.new (-5) 13 = .ok ⟨-5, 13⟩ ∧
      ((⟨-5, 13⟩ : FieldElement)).num < 0 := by
  constructor
  · decide
  · decide

/-- Claim C4 counterexample: multiply is claimed to error whenever the two
prime moduli differ.  The source's only guard is `other.num >= self.prime`,
so multiplying an `F_7` element by an `F_13` element succeeds whenever the
second residue happens to be below 7. -/
theorem claim_C4_mul_counterexample :
    (⟨2, 7⟩ : FieldElement).prime ≠ (⟨3, 13⟩ : FieldElement).prime ∧
    FieldElement.mul ⟨2, 7⟩ ⟨3, 13⟩ = .ok ⟨6, 7⟩ := by
  constructor
  · decide
  · decide

/-- Claim C4 amended: for operands with different prime moduli, add,
subtract and divide do return errors, but multiply never compares the
moduli: it errors exactly when `other.num >= self.prime` and otherwise
succeeds, computing modulo the left operand's prime. -/
theorem claim_C4_mul_amended (a b : FieldElement) (hne : a.prime ≠ b.prime) :
    (∃ m, FieldElement.add a b = .error m) ∧
    (∃ m, FieldElement.sub a b = .error m) ∧
    (∃ m, FieldElement.div a b = .error m) ∧
    (a.prime ≤ b.num →
      FieldElement.mul a b = .error "All numbers should belong to same set") ∧
    (0 < a.prime → b.num < a.prime → ∃ r, FieldElement.mul a b = .ok r) := by
  refine ⟨?_, ?_, ?_, ?_, ?_⟩
  · exact ⟨"Can\x27t add two numbers from different Fields", by
      unfold FieldElement.add
      rw [if_pos hne]⟩
  · exact ⟨"Can\x27t add two numbers from different Fields", by
      unfold FieldElement.sub
      rw [if_pos hne]⟩
  · exact ⟨"Can\x27t divide two numbers from different Fields", by
      unfold FieldElement.div
      rw [if_pos hne]⟩
  · intro hge
    unfold FieldElement.mul
    rw [if_pos hge]
  · intro hP hlt
    unfold FieldElement.mul
    rw [if_neg (not_le.mpr hlt)]
    exact ⟨_, by
      show FieldElement.new (redc a.prime (a.num * b.num)) a.prime = _
      rw [new_ok (redc_nonneg hP _) (redc_lt hP _)]⟩

/-- Witness for the amended Claim C4 at the counterexample input. -/
theorem claim_C4_mul_amended_witness :
    (⟨2, 7⟩ : FieldElement).prime ≠ (⟨3, 13⟩ : FieldElement).prime ∧
    ((∃ m, FieldElement.add ⟨2, 7⟩ ⟨3, 13⟩ = .error m) ∧
     (∃ m, FieldElement.sub ⟨2, 7⟩ ⟨3, 13⟩ = .error m) ∧
     (∃ m, FieldElement.div ⟨2, 7⟩ ⟨3, 13⟩ = .error m) ∧
     ((⟨2, 7⟩ : FieldElement).prime ≤ (⟨3, 13⟩ : FieldElement).num →
       FieldElement.mul ⟨2, 7⟩ ⟨3, 13⟩ =
         .error "All numbers should belong to same set") ∧
     (0 < (⟨2, 7⟩ : FieldElement).prime →
       (⟨3, 13⟩ : FieldElement).num < (⟨2, 7⟩ : FieldElement).prime →
       ∃ r, FieldElement.mul ⟨2, 7⟩ ⟨3, 13⟩ = .ok r)) :=
  ⟨by decide, claim_C4_mul_amended ⟨2, 7⟩ ⟨3, 13⟩ (by decide)⟩

/-- Claim C5 counterexample: the claim says `FieldElement(223, 223)` fails
with an out-of-range error.  In the source `223 % 223 = 0`, which passes
the `num >= prime` guard, so construction succeeds with residue `0`. -/
theorem claim_C5_boundary_counterexample :
    FieldElement.new 223 223 = .ok ⟨0, 223⟩ := by decide

/-- Claim C5 amended: `FieldElement(192, 223)` succeeds with residue 192,
and `FieldElement(223, 223)` also succeeds, with residue 0: the reduction
maps 223 to 0 and the out-of-range guard cannot fire for a positive
modulus. -/
theorem claim_C5_boundary_amended :
    FieldElement.new 192 223 = .ok ⟨192, 223⟩ ∧
    FieldElement.new 223 223 = .ok ⟨0, 223⟩ := by
  constructor
  · decide
  · decide

/-- Claim C6 counterexample: the claim asserts commutativity for every
pair of valid same-curve points, but over the prime modulus 46381 — just
above the i32 overflow threshold, since 46341^2 already exceeds 2^31 - 1 —
it fails.  The points (2, 22006) and (3, 16668) lie on `y^2 = x^3 + 7`
over `F_46381` and are accepted by `Point::new`, yet with the i32
semantics P + Q returns the point (16305, 39033) while Q + P fails with a
not-on-the-curve error: Q + P inverts `x1 - x2 = -1 mod p = 46380`, whose
squaring inside `mod_exp` wraps, so the slope and the y3 relation are
miscomputed. -/
theorem claim_C6_add32_not_commutative :
    Nat.Prime 46381 ∧
    Point.new32 (some ⟨2, 46381⟩) (some ⟨22006, 46381⟩) ⟨0, 46381⟩ ⟨7, 46381⟩ =
      .ok ⟨⟨0, 46381⟩, ⟨7, 46381⟩, some ⟨2, 46381⟩, some ⟨22006, 46381⟩⟩ ∧
    Point.new32 (some ⟨3, 46381⟩) (some ⟨16668, 46381⟩) ⟨0, 46381⟩ ⟨7, 46381⟩ =
      .ok ⟨⟨0, 46381⟩, ⟨7, 46381⟩, some ⟨3, 46381⟩, some ⟨16668, 46381⟩⟩ ∧
    Point.add32 ⟨⟨0, 46381⟩, ⟨7, 46381⟩, some ⟨2, 46381⟩, some ⟨22006, 46381⟩⟩
        ⟨⟨0, 46381⟩, ⟨7, 46381⟩, some ⟨3, 46381⟩, some ⟨16668, 46381⟩⟩ =
      some (.ok ⟨⟨0, 46381⟩, ⟨7, 46381⟩, some ⟨16305, 46381⟩, some ⟨39033, 46381⟩⟩) ∧
    Point.add32 ⟨⟨0, 46381⟩, ⟨7, 46381⟩, some ⟨3, 46381⟩, some ⟨16668, 46381⟩⟩
        ⟨⟨0, 46381⟩, ⟨7, 46381⟩, some ⟨2, 46381⟩, some ⟨22006, 46381⟩⟩ =
      some (.error "(20798,36247) is not on the curve") :=
  ⟨by norm_num, by decide, by decide, by decide, by decide⟩

/-- Claim C6, amended: with the i32 arithmetic of the source, Point
addition is commutative for all valid same-curve points whose common
prime modulus is at most 46340 — the largest modulus for which every
intermediate product of reduced residues stays below 2^31, so the wrapped
operations coincide with exact modular arithmetic.  For larger moduli the
products wrap and commutativity fails (see the counterexample). -/
theorem claim_C6_point_add32_comm (p : ℕ) (hp : p.Prime) (h46 : (p : ℤ) ≤ 46340)
    (P Q : Point)
    (hPv : ValidPoint32 p P) (hQv : ValidPoint32 p Q)
    (ha : P.a = Q.a) (hb : P.b = Q.b) :
    Point.add32 P Q = Point.add32 Q P := by
  unfold Point.add32
  have hc1 : ¬(P.a ≠ Q.a ∨ P.b ≠ Q.b) := by simp [ha, hb]
  have hc2 : ¬(Q.a ≠ P.a ∨ Q.b ≠ P.b) := by simp [ha, hb]
  rw [if_neg hc1, if_neg hc2]
  obtain ⟨hPa, hPb, hPxy⟩ := hPv
  obtain ⟨hQa, hQb, hQxy⟩ := hQv
  rcases hPxy with ⟨hPx, hPy⟩ | ⟨xv, yv, hPx, hPy, hxv, hyv, -⟩
  · -- P is the point at infinity
    rw [if_pos hPx]
    by_cases hQx : Q.x = none
    · rw [if_pos hQx]
      rcases hQxy with ⟨-, hQy⟩ | ⟨xw, yw, hQx', -, -, -, -⟩
      · have : P = Q := by
          cases P; cases Q
          simp_all
        rw [this]
      · rw [hQx] at hQx'; cases hQx'
    · rw [if_neg hQx, if_pos hPx]
  · -- P is finite
    rcases hQxy with ⟨hQx, hQy⟩ | ⟨xw, yw, hQx, hQy, hxw, hyw, -⟩
    · -- Q is the point at infinity
      rw [if_pos hQx]
      have hPxn : ¬(P.x = none) := by rw [hPx]; simp
      rw [if_neg hPxn, if_pos hQx]
    · -- both finite
      have hPxn : ¬(P.x = none) := by rw [hPx]; simp
      have hQxn : ¬(Q.x = none) := by rw [hQx]; simp
      rw [if_neg hPxn, if_neg hQxn, if_neg hQxn, if_neg hPxn]
      by_cases hxx : xv = xw
      · by_cases hyy : yv = yw
        · have : P = Q := by
            cases P; cases Q
            simp_all
          rw [this]
        · have hcond1 : P.x = Q.x ∧ P.y ≠ Q.y := by
            constructor
            · rw [hPx, hQx, hxx]
            · rw [hPy, hQy]
              simp only [ne_eq, Option.some.injEq]
              exact hyy
          have hcond2 : Q.x = P.x ∧ Q.y ≠ P.y := by
            constructor
            · rw [hPx, hQx, hxx]
            · rw [hPy, hQy]
              simp only [ne_eq, Option.some.injEq]
              exact fun h => hyy h.symm
          rw [if_pos hcond1, if_pos hcond2, ha, hb]
      · have hsome : ¬(xv = xw) → ¬(P.x = Q.x) := by
          intro h hc
          rw [hPx, hQx] at hc
          exact h (Option.some.injEq _ _ ▸ hc)
        have hxne : ¬(P.x = Q.x) := hsome hxx
        have hcond1 : ¬(P.x = Q.x ∧ P.y ≠ Q.y) := fun h => hxne h.1
        have hcond2 : ¬(Q.x = P.x ∧ Q.y ≠ P.y) := fun h => hxne (h.1.symm)
        rw [if_neg hcond1, if_neg hcond2, if_pos hxne,
          if_pos (fun h => hxne h.symm : ¬(Q.x = P.x))]
        rw [hPx, hQx, hPy, hQy]
        simp only []
        obtain ⟨hxvp, hxvl, hxvu⟩ := hxv
        obtain ⟨hyvp, hyvl, hyvu⟩ := hyv
        obtain ⟨hxwp, hxwl, hxwu⟩ := hxw
        obtain ⟨hywp, hywl, hywu⟩ := hyw
        have hnum : xv.num ≠ xw.num := by
          intro h
          apply hxx
          cases xv; cases xw
          simp_all
        rw [ha, hb]
        congr 1
        exact secantAdd32_comm hp h46 xv yv xw yw Q.a Q.b hxvp hxwp hyvp hywp
          hxvl hxvu hxwl hxwu hyvl hyvu hywl hywu hnum

/-- Witness for the amended Claim C6, at the two on-curve points
`(192, 105)` and `(17, 56)` of `y^2 = x^3 + 7` over `F_223` used by the
repository tests. -/
theorem claim_C6_point_add32_comm_witness :
    Point.add32 ⟨⟨0, 223⟩, ⟨7, 223⟩, some ⟨192, 223⟩, some ⟨105, 223⟩⟩
        ⟨⟨0, 223⟩, ⟨7, 223⟩, some ⟨17, 223⟩, some ⟨56, 223⟩⟩ =
      Point.add32 ⟨⟨0, 223⟩, ⟨7, 223⟩, some ⟨17, 223⟩, some ⟨56, 223⟩⟩
        ⟨⟨0, 223⟩, ⟨7, 223⟩, some ⟨192, 223⟩, some ⟨105, 223⟩⟩ :=
  claim_C6_point_add32_comm 223 (by norm_num) (by norm_num)
    ⟨⟨0, 223⟩, ⟨7, 223⟩, some ⟨192, 223⟩, some ⟨105, 223⟩⟩
    ⟨⟨0, 223⟩, ⟨7, 223⟩, some ⟨17, 223⟩, some ⟨56, 223⟩⟩
    ⟨⟨by decide, by decide, by decide⟩, ⟨by decide, by decide, by decide⟩,
      Or.inr ⟨⟨192, 223⟩, ⟨105, 223⟩, rfl, rfl,
        ⟨by decide, by decide, by decide⟩, ⟨by decide, by decide, by decide⟩,
        by decide⟩⟩
    ⟨⟨by decide, by decide, by decide⟩, ⟨by decide, by decide, by decide⟩,
      Or.inr ⟨⟨17, 223⟩, ⟨56, 223⟩, rfl, rfl,
        ⟨by decide, by decide, by decide⟩, ⟨by decide, by decide, by decide⟩,
        by decide⟩⟩
    rfl rfl

/-- Claim C7 counterexample: construction is claimed to reject a point
with exactly one coordinate present.  `Point::new` only runs a check when
both are present, so `(Some x, None)` is accepted unchanged. -/
theorem claim_C7_half_infinity_counterexample :
    Point.new (some ⟨1, 223⟩) none ⟨0, 223⟩ ⟨7, 223⟩ =
      .ok ⟨⟨0, 223⟩, ⟨7, 223⟩, some ⟨1, 223⟩, none⟩ := by decide

/-- Claim C7 amended: when either coordinate argument is absent,
`Point::new` skips the membership check entirely and stores the arguments
unchanged, so a Point with exactly one coordinate present can be
constructed. -/
theorem claim_C7_new_skips_check_when_absent (x y : Option FieldElement)
    (a b : FieldElement) (h : x = none ∨ y = none) :
    Point.new x y a b = .ok ⟨a, b, x, y⟩ := by
  rcases h with h | h
  · subst h
    cases y <;> rfl
  · subst h
    cases x <;> rfl

/-- Witness for the amended Claim C7 at the half-infinity input. -/
theorem claim_C7_new_skips_check_witness :
    ((some (⟨1, 223⟩ : FieldElement) = none) ∨
      ((none : Option FieldElement) = none)) ∧
    Point.new (some ⟨1, 223⟩) none ⟨0, 223⟩ ⟨7, 223⟩ =
      .ok ⟨⟨0, 223⟩, ⟨7, 223⟩, some ⟨1, 223⟩, none⟩ :=
  ⟨Or.inr rfl,
    claim_C7_new_skips_check_when_absent (some ⟨1, 223⟩) none ⟨0, 223⟩ ⟨7, 223⟩
      (Or.inr rfl)⟩

/-- Claim C8: the final catch-all branch of `impl Add for Point`, which
returns the unlabeled empty-string error, is unreachable: for every pair
of points (same-curve or not), the addition result is never that error.
When the first four guards fail, the two operands necessarily have equal
coefficients and equal coordinate options, so the `self == other` branch
fires before the catch-all. -/
theorem claim_C8_catch_all_unreachable (p q : Point) :
    isDegenerateErr (Point.add p q) = false := by
  unfold Point.add
  split
  · cases hf1 : p.fmtDisplay with
    | none => cases q.fmtDisplay <;> rfl
    | some s1 =>
      cases hf2 : q.fmtDisplay with
      | none => rfl
      | some s2 =>
        show (("Points " ++ s1 ++ ", " ++ s2 ++ " are not on the same curve") == "") = false
        apply beq_eq_false_iff_ne.mpr
        intro h
        have hl := congrArg String.length h
        simp only [String.length_append] at hl
        have h7 : ("Points ".length) = 7 := by decide
        have h0 : ("".length) = 0 := by decide
        omega
  next hcond1 =>
  split
  · rfl
  split
  · rfl
  split
  · exact isDegenerateErr_of_ne (point_new_ne _ _ _ _)
  next hcond4 =>
  split
  · cases p.x with
    | none => cases q.x <;> rfl
    | some x1 =>
      cases q.x with
      | none => rfl
      | some x2 =>
        cases p.y with
        | none => cases q.y <;> rfl
        | some y1 =>
          cases q.y with
          | none => rfl
          | some y2 => exact isDegenerateErr_of_ne (secantAdd_ne _ _ _ _ _ _)
  next hcond5 =>
  split
  · cases p.y with
    | none => rfl
    | some y1 =>
      dsimp only
      split
      · exact isDegenerateErr_of_ne (point_new_ne _ _ _ _)
      · cases p.x with
        | none => rfl
        | some x1 => exact isDegenerateErr_of_ne (doubleAdd_ne _ _ _ _)
  next hpq =>
  -- the catch-all: impossible, since the previous guards force p = q
  exfalso
  apply hpq
  have hab : p.a = q.a ∧ p.b = q.b := by
    by_contra hc
    apply hcond1
    rcases not_and_or.mp hc with h | h
    · exact Or.inl h
    · exact Or.inr h
  have hx : p.x = q.x := not_not.mp hcond5
  have hy : p.y = q.y := by
    by_contra hc
    exact hcond4 ⟨hx, hc⟩
  cases p; cases q
  simp_all

/-- Claim C9: Display of a Point is claimed to be total.  The source
unwraps both coordinates, so a finite point renders as its four residues
but the point at infinity panics (modelled by `none`): formatting is not
total on the point at infinity. -/
theorem claim_C9_display_panics_at_infinity :
    Point.fmtDisplay ⟨⟨0, 223⟩, ⟨7, 223⟩, none, none⟩ = none ∧
    Point.fmtDisplay ⟨⟨0, 223⟩, ⟨7, 223⟩, some ⟨192, 223⟩, some ⟨105, 223⟩⟩ =
      some "(192, 105, 0, 7)" := by
  constructor
  · rfl
  · decide

/-- Claim C10: for every FieldElement with modulus above 1, including the
zero residue, `field_power(prime - 1)` returns the residue 1: the
exponent is reduced by `rem_euclid(prime - 1)` to 0, so the
square-and-multiply loop never multiplies by the base and the accumulator
1 is returned. -/
theorem claim_C10_field_power_full_exponent (e : FieldElement)
    (h : 1 < e.prime) :
    FieldElement.field_power e (e.prime - 1) = .ok ⟨1, e.prime⟩ := by
  simp only [FieldElement.field_power]
  have h0 : (e.prime - 1).emod (e.prime - 1) = 0 := Int.emod_self
  rw [h0]
  have hm : mod_exp e.num 0 e.prime = 1 := rfl
  rw [hm]
  exact new_ok (by omega) h

/-- Witness for Claim C10 at the zero residue of `F_7`. -/
theorem claim_C10_field_power_witness :
    1 < (⟨0, 7⟩ : FieldElement).prime ∧
    FieldElement.field_power ⟨0, 7⟩ ((⟨0, 7⟩ : FieldElement).prime - 1) =
      .ok ⟨1, (⟨0, 7⟩ : FieldElement).prime⟩ :=
  ⟨by decide, claim_C10_field_power_full_exponent ⟨0, 7⟩ (by decide)⟩
